import Mathlib

/-!
Verification development for the home-automation backend.

Shallow embedding of the parts of the code under verification:
  * `app/services/device_pool.py` — `DevicePool` (session cache with TTL and
    suspension backoff),
  * `app/services/recording_manager.py` — upload worker, cleanup worker,
    ffmpeg launch command, Drive folder-id cache,
  * `app/services/recording_service.py` — `get_recording_days`.

Timestamps (`time.monotonic()`) are modelled as integers (`Int`); sessions are
an opaque type parameter `σ`; the outcome of `tapo.connect()` is passed to
`get` explicitly as an `Except String σ` value (error = the exception's
message).  Dictionaries are modelled as functions `String → Option _`, updated
pointwise by `upd`.
-/

namespace HomeAutomation

/-- Pointwise update of a function, modelling `d[k] = v` / `del d[k]` on a
Python dict represented as `String → Option β` (or similar). -/
def upd {α β : Type} [DecidableEq α] (f : α → β) (a : α) (b : β) : α → β :=
  fun x => if x = a then b else f x

/-! ## device_pool.py -/

/-- `SESSION_TTL = 600` (seconds). -/
def SESSION_TTL : Int := 600

/-- `_Entry`: a cached session plus its creation timestamp. -/
structure Entry (σ : Type) where
  camera : σ
  created_at : Int

/-- `_Entry.is_expired`: `(time.monotonic() - self.created_at) > SESSION_TTL`. -/
def Entry.is_expired {σ : Type} (e : Entry σ) (now : Int) : Bool :=
  decide (SESSION_TTL < now - e.created_at)

/-- `_Suspension`: quarantine until the `retry_after` timestamp. -/
structure Suspension where
  retry_after : Int
deriving DecidableEq

/-- `_Suspension.is_active`: `time.monotonic() < self.retry_after`. -/
def Suspension.is_active (s : Suspension) (now : Int) : Bool :=
  decide (now < s.retry_after)

/-- `_Suspension.remaining_seconds`: `max(0, int(self.retry_after - time.monotonic()))`
(the `int` truncation is the identity in the integer-time model). -/
def Suspension.remaining_seconds (s : Suspension) (now : Int) : Int :=
  max 0 (s.retry_after - now)

/-- Maximal leading run of decimal digits of a character list, with the rest
(the greedy `\d+` of the regex). -/
def digitRun : List Char → List Char × List Char
  | [] => ([], [])
  | c :: cs =>
    if c.isDigit then
      let p := digitRun cs
      (c :: p.1, p.2)
    else ([], c :: cs)

/-- Value of a list of decimal digit characters (most significant first),
accumulator style — the `int(...)` applied to the matched group. -/
def natOfDigits : List Char → Nat → Nat
  | [], acc => acc
  | c :: cs, acc => natOfDigits cs (acc * 10 + (c.toNat - '0'.toNat))

/-- Strip an expected literal character sequence from the front of a list,
returning the remainder on success. -/
def dropLit : List Char → List Char → Option (List Char)
  | [], cs => some cs
  | _ :: _, [] => none
  | p :: ps, c :: cs => if c = p then dropLit ps cs else none

/-- Match the regex `Try again in (\d+) seconds` anchored at the head of the
list: the literal prefix, then a nonempty maximal digit run, then the literal
` seconds`.  (The digit run being maximal is exactly what the greedy `\d+`
followed by a space yields.) -/
def matchSuspAt (cs : List Char) : Option Nat :=
  match dropLit "Try again in ".toList cs with
  | none => none
  | some rest =>
    let p := digitRun rest
    if p.1.isEmpty then none
    else
      match dropLit " seconds".toList p.2 with
      | none => none
      | some _ => some (natOfDigits p.1 0)

/-- Leftmost-match search of the regex over the whole string, as `re.search`
does: try to match at each successive start position. -/
def searchSusp : List Char → Option Nat
  | [] => none
  | c :: cs =>
    match matchSuspAt (c :: cs) with
    | some n => some n
    | none => searchSusp cs

/-- `_parse_suspension_seconds`: extract `N` from an error message containing
`Try again in N seconds`, else `None`. -/
def _parse_suspension_seconds (error_msg : String) : Option Nat :=
  searchSusp error_msg.toList

/-- State of one `DevicePool` instance: `self._pool`, `self._suspensions`, and
(for frame reasoning) which keys have had a lock created by `_lock_for`. -/
structure PoolState (σ : Type) where
  pool : String → Option (Entry σ)
  suspensions : String → Option Suspension
  locks : String → Bool

/-- Result of one `DevicePool.get` call: the returned session, the
`DeviceConnectionError` raised for an active suspension (with its
remaining-seconds figure), or the factory's own exception re-raised. -/
inductive GetResult (σ : Type) where
  | ok (session : σ)
  | suspendedErr (remaining : Int)
  | err (msg : String)
deriving DecidableEq

/-- Everything observable about one `get` call: its result, the pool state
after the call, and whether `tapo.connect()` was invoked. -/
structure GetOutcome (σ : Type) where
  result : GetResult σ
  state : PoolState σ
  invoked : Bool

/-- The `try: await tapo.connect() ... except` block of `DevicePool.get`:
invoke the factory; on success store a fresh `_Entry`; on failure parse the
message and — Python `if seconds:` being false for both `None` and `0` —
install a `_Suspension(now + seconds)` only for a nonzero parse, then
re-raise the original error. -/
def DevicePool.connectNew {σ : Type} (st : PoolState σ) (key : String) (now : Int)
    (connect : Except String σ) : GetOutcome σ :=
  match connect with
  | Except.ok sess =>
    ⟨GetResult.ok sess,
     { st with pool := upd st.pool key (some ⟨sess, now⟩) }, true⟩
  | Except.error msg =>
    match _parse_suspension_seconds msg with
    | some seconds =>
      if 0 < seconds then
        ⟨GetResult.err msg,
         { st with suspensions := upd st.suspensions key (some ⟨now + seconds⟩) }, true⟩
      else ⟨GetResult.err msg, st, true⟩
    | none => ⟨GetResult.err msg, st, true⟩

/-- The cache lookup of `DevicePool.get`: return a present, non-expired entry
without connecting, else fall through to `connectNew`. -/
def DevicePool.lookupOrConnect {σ : Type} (st : PoolState σ) (key : String) (now : Int)
    (connect : Except String σ) : GetOutcome σ :=
  match st.pool key with
  | some entry =>
    if entry.is_expired now then DevicePool.connectNew st key now connect
    else ⟨GetResult.ok entry.camera, st, false⟩
  | none => DevicePool.connectNew st key now connect

/-- `DevicePool.get` (sequential semantics of the body under the per-key
lock): create the per-key lock if absent, fail fast on an active suspension,
discard an expired one, then serve from cache or connect. -/
def DevicePool.get {σ : Type} (st : PoolState σ) (key : String) (now : Int)
    (connect : Except String σ) : GetOutcome σ :=
  let st0 : PoolState σ := { st with locks := upd st.locks key true }
  match st0.suspensions key with
  | some s =>
    if s.is_active now then
      ⟨GetResult.suspendedErr (s.remaining_seconds now), st0, false⟩
    else
      DevicePool.lookupOrConnect
        { st0 with suspensions := upd st0.suspensions key none } key now connect
  | none => DevicePool.lookupOrConnect st0 key now connect

/-- `DevicePool.remove`: `self._pool.pop(ip_address, None)`. -/
def DevicePool.remove {σ : Type} (st : PoolState σ) (ip_address : String) : PoolState σ :=
  { st with pool := upd st.pool ip_address none }

/-- `DevicePool.invalidate`: force reconnect on next access
(does not clear suspensions). -/
def DevicePool.invalidate {σ : Type} (st : PoolState σ) (ip_address : String) : PoolState σ :=
  DevicePool.remove st ip_address

/-- Whether an active suspension exists for `key` at time `now`. -/
def activeSusp {σ : Type} (st : PoolState σ) (key : String) (now : Int) : Bool :=
  match st.suspensions key with
  | some s => s.is_active now
  | none => false

/-- Whether a cached, non-expired entry exists for `key` at time `now`
(the `entry and not entry.is_expired()` test). -/
def entryFresh {σ : Type} (st : PoolState σ) (key : String) (now : Int) : Bool :=
  match st.pool key with
  | some e => !e.is_expired now
  | none => false

/-- State after `_lock_for` plus the expired-suspension cleanup of `get`:
the per-key lock exists and any suspension recorded under `key` is gone. -/
def lockAndClear {σ : Type} (st : PoolState σ) (key : String) : PoolState σ :=
  { st with locks := upd st.locks key true,
            suspensions := upd st.suspensions key none }

/-- A pool with no entries, no suspensions, no locks. -/
def emptyPool : PoolState Nat :=
  ⟨fun _ => none, fun _ => none, fun _ => false⟩

/-- The suspension message used in the repository's own tests. -/
def suspMsg1800 : String := "Temporary Suspension: Try again in 1800 seconds"

/-- A pool holding one fresh session (42, created at time 0) for 10.0.0.1. -/
def cachedPool : PoolState Nat :=
  { emptyPool with pool := upd emptyPool.pool "10.0.0.1" (some ⟨42, 0⟩) }

/-- A pool holding a fresh session and an already-expired suspension
(retry_after 5) for 10.0.0.1. -/
def c7Pool : PoolState Nat :=
  ⟨upd (fun _ => none) "10.0.0.1" (some ⟨42, 0⟩),
   upd (fun _ => none) "10.0.0.1" (some ⟨5⟩),
   fun _ => false⟩

/-- A deterministic stand-in for the remote `get_or_create_folder` call,
returning a distinct id per (name, parent) pair. -/
def gdriveStub : String → String → String :=
  fun name parent_id => parent_id ++ "|" ++ name

/-! ## models/camera.py -/

/-- The columns of the `cameras` table that the recording manager consumes. -/
structure Camera where
  id : Nat
  name : String
  is_active : Bool
  has_recording : Bool
  recording_segment_seconds : Option Nat
deriving DecidableEq

/-! ## recording_manager.py -/

/-- The camera query of `RecordingManager.start`:
`select(Camera).where(Camera.is_active.is_(True))` — the code filters on the
active flag only. -/
def startEligibleCameras (cameras : List Camera) : List Camera :=
  cameras.filter (fun c => c.is_active)

/-- Modelled from the spec: eligibility for recording requires the active flag
AND the recording-enabled flag (`has_recording`) — the repository's own tests
(`test_start_OnlyRecordingEnabled_SkipsCamerasWithRecordingDisabled`) assert
this behaviour, which `start` does not implement. -/
def specEligibleCameras (cameras : List Camera) : List Camera :=
  cameras.filter (fun c => c.is_active && c.has_recording)

/-- Modelled from the spec: the effective segment duration is the per-camera
override when present, else the global default — asserted by the repository's
tests on a `_segment_seconds` cache that the code does not have. -/
def specEffectiveSegmentSeconds (globalDefault : Nat) (c : Camera) : Nat :=
  c.recording_segment_seconds.getD globalDefault

/-- The ffmpeg argv built by `RecordingManager._start_camera`; the
`-segment_time` argument is always `settings.recording_segment_seconds`
(the global default), whatever the camera. -/
def startCameraCmd (recordings_local_path : String)
    (recording_segment_seconds : Nat) (camera_id : Nat) : List String :=
  [ "ffmpeg",
    "-hide_banner",
    "-loglevel", "warning",
    "-rtsp_transport", "tcp",
    "-i", "rtsp://localhost:8554/camera_" ++ toString camera_id,
    "-an",
    "-c:v", "copy",
    "-f", "segment",
    "-segment_time", toString recording_segment_seconds,
    "-strftime", "1",
    "-reset_timestamps", "1",
    recordings_local_path ++ "/" ++ toString camera_id ++ "/%Y-%m-%d_%H-%M-%S.mp4" ]

/-- Lexicographic comparison of character lists by code point — the order
Python uses to compare strings (a proper initial segment sorts first). -/
def lexLe : List Char → List Char → Bool
  | [], _ => true
  | _ :: _, [] => false
  | a :: as, b :: bs =>
    if a.toNat < b.toNat then true
    else if b.toNat < a.toNat then false
    else lexLe as bs

/-- Python `a <= b` on strings. -/
def pyStrLe (a b : String) : Bool :=
  lexLe a.toList b.toList

/-- Python `s.startswith(p)`. -/
def pyStartsWith (p s : String) : Bool :=
  (dropLit p.toList s.toList).isSome

/-- The per-directory selection of `_upload_worker`:
`mp4_files = sorted(cam_dir.glob("*.mp4"))` and
`completed = mp4_files[:-1] if len(mp4_files) > 1 else []`. -/
def completedSegments (files : List String) : List String :=
  let mp4_files := files.mergeSort pyStrLe
  if 1 < mp4_files.length then mp4_files.dropLast else []

/-- The `for attempt in range(3)` retry loop of `_upload_worker` for one file,
parameterized by which attempt numbers would succeed (`ok`).  Returns
(number of upload calls, the sleeps performed between attempts, whether the
local file was deleted).  `fuel` is the number of loop iterations left in
`range(3)`. -/
def uploadLoop (ok : Nat → Bool) (attempt : Nat) : Nat → Nat × List Nat × Bool
  | 0 => (0, [], false)
  | fuel + 1 =>
    if ok attempt then (1, [], true)
    else if attempt < 2 then
      let r := uploadLoop ok (attempt + 1) fuel
      (r.1 + 1, 5 * (attempt + 1) :: r.2.1, r.2.2)
    else (1, [], false)

/-- One file's full retry sequence: the loop entered at attempt 0 with the
three iterations of `range(3)`. -/
def uploadFileRetries (ok : Nat → Bool) : Nat × List Nat × Bool :=
  uploadLoop ok 0 3

/-- The delete loop of `_cleanup_worker`'s daily pass: files are deleted in
order inside a single `try` block, so the first failing `delete_file` raises
to the surrounding `except` and ends the pass.  Returns the files on which a
deletion was attempted (`deleteOk f = true` meaning the remote delete
succeeded). -/
def cleanupDeleteAttempts {α : Type} (deleteOk : α → Bool) : List α → List α
  | [] => []
  | f :: fs => if deleteOk f then f :: cleanupDeleteAttempts deleteOk fs else [f]

/-- Result of `RecordingManager._get_folder_id`: the folder id returned, the
cache afterwards, and how many remote `get_or_create_folder` calls were made. -/
structure FolderLookup where
  folder_id : String
  cache : String → Option String
  remoteCalls : Nat

/-- `RecordingManager._get_folder_id`: memoize Drive folder ids under the
single string key `f"{parent_id}/{name}"`. -/
def _get_folder_id (gdrive_get_or_create_folder : String → String → String)
    (folder_cache : String → Option String)
    (name parent_id : String) : FolderLookup :=
  let cache_key := parent_id ++ "/" ++ name
  match folder_cache cache_key with
  | some fid => ⟨fid, folder_cache, 0⟩
  | none =>
    let fid := gdrive_get_or_create_folder name parent_id
    ⟨fid, upd folder_cache cache_key (some fid), 1⟩

/-! ## recording_service.py -/

/-- Left-pad a string with zeros to the given width, as Python's `0Nd` format
does for a non-negative integer's digits. -/
def padZeros (width : Nat) (s : String) : String :=
  String.mk (List.replicate (width - s.length) '0') ++ s

/-- Python `f"{n:0{width}d}"` for a non-negative `n`. -/
def fmtWidth (width n : Nat) : String :=
  padZeros width (toString n)

/-- Value of a nonempty all-digit character list, else `none`. -/
def digitsVal : List Char → Option Nat
  | [] => none
  | cs => if cs.all Char.isDigit then some (natOfDigits cs 0) else none

/-- Python `int(s)` restricted to an optional sign followed by decimal digits
(`ValueError`, i.e. `none`, otherwise); whitespace trimming and underscore
separators of CPython's grammar do not occur in the folder names at hand. -/
def pyInt : String → Option Int
  | s =>
    match s.toList with
    | '+' :: rest => (digitsVal rest).map (fun n => (n : Int))
    | '-' :: rest => (digitsVal rest).map (fun n => -(n : Int))
    | cs => (digitsVal cs).map (fun n => (n : Int))

/-- The year-month folder-name pattern `f"{year:04d}-{month:02d}-"` built by
`get_recording_days`. -/
def monthPat (year month : Nat) : String :=
  fmtWidth 4 year ++ "-" ++ fmtWidth 2 month ++ "-"

/-- `RecordingService.get_recording_days`, given the names of the camera
folder's date subfolders: keep the names starting with the year-month pattern,
parse the remainder with `int(...)` skipping `ValueError`s, and sort. -/
def get_recording_days (folderNames : List String) (year month : Nat) : List Int :=
  let days := folderNames.filterMap (fun name =>
    if pyStartsWith (monthPat year month) name then
      pyInt (name.drop (monthPat year month).length)
    else none)
  days.mergeSort (fun a b => decide (a ≤ b))

/-! ## Concurrency model for the per-key lock of `DevicePool.get`

One cooperative task per concurrent `get` call.  Each task acquires its key's
`asyncio.Lock`, then checks the cache under the lock: on a hit it returns, on
a miss it invokes the factory (the in-flight connection attempt) and stores
the session before releasing the lock.  `count k` counts factory invocations
for key `k`. -/

/-- Program counter of one task running `DevicePool.get`. -/
inductive TaskPC where
  | ready
  | locked
  | inFactory
  | done
deriving DecidableEq

/-- Shared state seen by `n` concurrent `get` tasks: who holds each key's
lock, whether a fresh session is cached for a key, how often the factory ran
for a key, and each task's program counter. -/
structure CState (n : Nat) where
  lock : String → Option (Fin n)
  cache : String → Bool
  count : String → Nat
  pcs : Fin n → TaskPC

/-- Initial state: no locks held, nothing cached, no factory calls, every task
about to call `get`. -/
def initC (n : Nat) : CState n :=
  ⟨fun _ => none, fun _ => false, fun _ => 0, fun _ => TaskPC.ready⟩

/-- Interleaving semantics of `n` concurrent `DevicePool.get` calls, task `i`
operating on key `key i`: acquire the free per-key lock; under the lock either
hit the cache and return, or invoke the factory; a finished factory call
stores the session and releases the lock. -/
inductive CStep {n : Nat} (key : Fin n → String) : CState n → CState n → Prop
  | acquire (s : CState n) (i : Fin n) :
      s.pcs i = TaskPC.ready → s.lock (key i) = none →
      CStep key s { s with lock := upd s.lock (key i) (some i),
                           pcs := upd s.pcs i TaskPC.locked }
  | cacheHit (s : CState n) (i : Fin n) :
      s.pcs i = TaskPC.locked → s.cache (key i) = true →
      CStep key s { s with lock := upd s.lock (key i) none,
                           pcs := upd s.pcs i TaskPC.done }
  | cacheMiss (s : CState n) (i : Fin n) :
      s.pcs i = TaskPC.locked → s.cache (key i) = false →
      CStep key s { s with count := upd s.count (key i) (s.count (key i) + 1),
                           pcs := upd s.pcs i TaskPC.inFactory }
  | finishFactory (s : CState n) (i : Fin n) :
      s.pcs i = TaskPC.inFactory →
      CStep key s { s with lock := upd s.lock (key i) none,
                           cache := upd s.cache (key i) true,
                           pcs := upd s.pcs i TaskPC.done }

/-- Reachability from the initial state under the interleaving semantics. -/
def CReach {n : Nat} (key : Fin n → String) (s : CState n) : Prop :=
  Relation.ReflTransGen (CStep key) (initC n) s

/-- Inductive invariant of the concurrent model. -/
structure CInv {n : Nat} (key : Fin n → String) (s : CState n) : Prop where
  lockOwner : ∀ (k : String) (i : Fin n), s.lock k = some i →
    key i = k ∧ (s.pcs i = TaskPC.locked ∨ s.pcs i = TaskPC.inFactory)
  holdsLock : ∀ i : Fin n,
    s.pcs i = TaskPC.locked ∨ s.pcs i = TaskPC.inFactory → s.lock (key i) = some i
  countOne : ∀ k : String,
    (s.cache k = true ∨ ∃ i : Fin n, key i = k ∧ s.pcs i = TaskPC.inFactory) →
    s.count k = 1
  countZero : ∀ k : String, s.cache k = false →
    (∀ i : Fin n, key i = k → s.pcs i ≠ TaskPC.inFactory) → s.count k = 0
  noBoth : ∀ (k : String) (i : Fin n), s.cache k = true → key i = k →
    s.pcs i ≠ TaskPC.inFactory
  doneCached : ∀ i : Fin n, s.pcs i = TaskPC.done → s.cache (key i) = true

/-! ## Theorems -/

theorem upd_same {α β : Type} [DecidableEq α] (f : α → β) (a : α) (b : β) :
    upd f a b a = b := by
  simp [upd]

theorem upd_other {α β : Type} [DecidableEq α] (f : α → β) (a : α) (b : β) (x : α)
    (h : x ≠ a) : upd f a b x = f x := by
  simp [upd, h]

/-- C3: the claim says `RecordingManager.start` records exactly the cameras
with both the active flag and the recording-enabled flag set, passing each a
segment duration equal to the per-camera override when present.  The code
disagrees on both counts (its own tests assert the claimed behaviour): a
camera with `is_active = True` and `has_recording = False` is still selected
by the code's query, and the ffmpeg command of a camera with override 60 still
carries the global default 300 as its `-segment_time` argument. -/
theorem C3_start_eligibility_codebug :
    let cam : Camera := ⟨2, "Cam B", true, false, some 60⟩
    startEligibleCameras [cam] = [cam]
      ∧ specEligibleCameras [cam] = []
      ∧ (startCameraCmd "/rec" 300 2).get? 14 = some "300"
      ∧ specEffectiveSegmentSeconds 300 cam = 60 := by
  refine ⟨rfl, rfl, rfl, rfl⟩

/-- C4 counterexample: with batch [a, b, c] where deleting b fails, the
cleanup pass attempts only [a, b] — file c, although in the batch, is never
attempted in that pass, contradicting the claim that every other file in the
batch is still attempted. -/
theorem C4_cleanup_abort_counterexample :
    let deleteOk : String → Bool := fun f => !(f == "b")
    cleanupDeleteAttempts deleteOk ["a", "b", "c"] = ["a", "b"]
      ∧ "c" ∉ cleanupDeleteAttempts deleteOk ["a", "b", "c"] := by
  refine ⟨rfl, by decide⟩

/-- C4 amended: in the cleanup worker's daily pass, the first failing remote
deletion is logged and ABORTS the remaining batch: the files before it are
deleted, the failing file is attempted, and every file after it is left
unattempted for that pass (it remains past the cutoff and is picked up by the
next daily pass); when every deletion succeeds the whole batch is processed. -/
theorem C4_cleanup_abort_amended {α : Type} (deleteOk : α → Bool)
    (xs : List α) (f : α) (ys : List α) :
    ((∀ x ∈ xs, deleteOk x = true) → deleteOk f = false →
      cleanupDeleteAttempts deleteOk (xs ++ f :: ys) = xs ++ [f])
    ∧ ((∀ x ∈ xs, deleteOk x = true) → cleanupDeleteAttempts deleteOk xs = xs) := by
  induction xs with
  | nil =>
    refine ⟨fun _ hf => ?_, fun _ => rfl⟩
    simp [cleanupDeleteAttempts, hf]
  | cons x xs ih =>
    constructor
    · intro hall hf
      have hx : deleteOk x = true := hall x (by simp)
      simp [cleanupDeleteAttempts, hx, ih.1 (fun y hy => hall y (by simp [hy])) hf]
    · intro hall
      have hx : deleteOk x = true := hall x (by simp)
      simp [cleanupDeleteAttempts, hx, ih.2 (fun y hy => hall y (by simp [hy]))]

theorem C4_cleanup_abort_amended_witness :
    (∀ x ∈ (["a"] : List String), (fun f : String => !(f == "b")) x = true)
    ∧ (fun f : String => !(f == "b")) "b" = false
    ∧ cleanupDeleteAttempts (fun f : String => !(f == "b")) (["a"] ++ "b" :: ["c"])
        = ["a"] ++ ["b"] := by
  refine ⟨by decide, by decide, ?_⟩
  exact (C4_cleanup_abort_amended (fun f : String => !(f == "b")) ["a"] "b" ["c"]).1
    (by decide) (by decide)

/-- C5: for one segment file, the upload worker performs at most 3 upload
calls; a success at attempt k deletes the local file and stops, with the
sleeps performed so far being 5 seconds after the first failure and 10 seconds
after the second; three failures leave the file in place with exactly the
sleeps [5, 10] having occurred. -/
theorem C5_upload_retries (ok : Nat → Bool) :
    (uploadFileRetries ok).1 ≤ 3
    ∧ uploadFileRetries ok =
        (if ok 0 then (1, [], true)
         else if ok 1 then (2, [5], true)
         else if ok 2 then (3, [5, 10], true)
         else (3, [5, 10], false)) := by
  cases h0 : ok 0 <;> cases h1 : ok 1 <;> cases h2 : ok 2 <;>
    simp [uploadFileRetries, uploadLoop, h0, h1, h2]

theorem lexLe_refl : ∀ cs : List Char, lexLe cs cs = true := by
  intro cs
  induction cs with
  | nil => rfl
  | cons c cs ih => simp [lexLe, ih]

theorem lexLe_total : ∀ as bs : List Char, lexLe as bs || lexLe bs as := by
  intro as
  induction as with
  | nil => intro bs; simp [lexLe]
  | cons a as ih =>
    intro bs
    cases bs with
    | nil => simp [lexLe]
    | cons b bs =>
      by_cases h1 : a.toNat < b.toNat
      · simp [lexLe, h1]
      · by_cases h2 : b.toNat < a.toNat
        · simp [lexLe, h1, h2]
        · have := ih bs
          simp [lexLe, h1, h2, this]

theorem lexLe_trans : ∀ as bs cs : List Char,
    lexLe as bs = true → lexLe bs cs = true → lexLe as cs = true := by
  intro as
  induction as with
  | nil => intro bs cs _ _; rfl
  | cons a as ih =>
    intro bs cs hab hbc
    cases bs with
    | nil => simp [lexLe] at hab
    | cons b bs =>
      cases cs with
      | nil => simp [lexLe] at hbc
      | cons c cs =>
        simp only [lexLe] at hab hbc ⊢
        split at hab
        · split at hbc
          · simp [show a.toNat < c.toNat by omega]
          · split at hbc
            · exact absurd hbc (by simp)
            · simp [show a.toNat < c.toNat by omega]
        · split at hab
          · exact absurd hab (by simp)
          · split at hbc
            · simp [show a.toNat < c.toNat by omega]
            · split at hbc
              · exact absurd hbc (by simp)
              · have hac : ¬ a.toNat < c.toNat := by omega
                have hca : ¬ c.toNat < a.toNat := by omega
                simp [hac, hca]
                exact ih bs cs hab hbc

theorem pyStrLe_refl (a : String) : pyStrLe a a = true := lexLe_refl _

/-- Every element of a list that is pairwise-le-sorted is le its last
element. -/
theorem pairwise_getLast {α : Type} (le : α → α → Bool) (hrefl : ∀ a, le a a = true) :
    ∀ (l : List α), l.Pairwise (fun a b => le a b = true) →
      ∀ (hne : l ≠ []) (x : α), x ∈ l → le x (l.getLast hne) = true
  | [], _, hne, _, _ => absurd rfl hne
  | a :: l', h, hne, x, hx => by
    rcases List.mem_cons.mp hx with hxa | hxl
    · subst hxa
      cases l' with
      | nil => simpa using hrefl x
      | cons b l'' =>
        have hmem : (b :: l'').getLast (by simp) ∈ b :: l'' := List.getLast_mem _
        have := (List.pairwise_cons.mp h).1 _ hmem
        simpa [List.getLast_cons] using this
    · cases l' with
      | nil => simp at hxl
      | cons b l'' =>
        have := pairwise_getLast le hrefl (b :: l'') (List.pairwise_cons.mp h).2 (by simp) x hxl
        simpa [List.getLast_cons] using this

/-- C6: in every upload scan, each camera directory's .mp4 files are sorted by
name and all but the lexicographically last are selected; on the three example
files exactly the first two are selected, and a directory with one or zero
files yields no selection.  In general the sorted listing is the selection
plus one final file that every file of the directory is lexicographically
at most equal to. -/
theorem C6_upload_selection :
    completedSegments
        ["2026-02-28_14-00-00.mp4", "2026-02-28_14-05-00.mp4", "2026-02-28_14-10-00.mp4"]
      = ["2026-02-28_14-00-00.mp4", "2026-02-28_14-05-00.mp4"]
    ∧ (∀ f : String, completedSegments [f] = [])
    ∧ completedSegments [] = []
    ∧ ∀ files : List String, 1 < files.length →
        ∃ lastFile : String,
          files.mergeSort pyStrLe = completedSegments files ++ [lastFile]
          ∧ ∀ f ∈ files, pyStrLe f lastFile = true := by
  refine ⟨?_, ?_, by simp [completedSegments], ?_⟩
  · have hs : List.mergeSort
        ["2026-02-28_14-00-00.mp4", "2026-02-28_14-05-00.mp4", "2026-02-28_14-10-00.mp4"] pyStrLe
      = ["2026-02-28_14-00-00.mp4", "2026-02-28_14-05-00.mp4", "2026-02-28_14-10-00.mp4"] := by
      apply List.mergeSort_of_sorted
      decide
    simp [completedSegments, hs]
  · intro f
    simp [completedSegments]
  · intro files hlen
    set sortedFiles := files.mergeSort pyStrLe with hsorted
    have hperm := List.mergeSort_perm files pyStrLe
    have hlen' : 1 < sortedFiles.length := by rwa [hperm.length_eq]
    have hne : sortedFiles ≠ [] := by
      intro h; rw [h] at hlen'; simp at hlen'
    refine ⟨sortedFiles.getLast hne, ?_, ?_⟩
    · have hdrop : completedSegments files = sortedFiles.dropLast := by
        simp [completedSegments, ← hsorted, hlen']
      rw [hdrop, List.dropLast_append_getLast]
    · intro f hf
      have hfs : f ∈ sortedFiles := by
        rw [hsorted]; exact List.mem_mergeSort.mpr hf
      have hpw : (files.mergeSort pyStrLe).Pairwise (fun a b => pyStrLe a b = true) :=
        List.sorted_mergeSort
          (fun a b c h1 h2 => lexLe_trans a.toList b.toList c.toList h1 h2)
          (fun a b => lexLe_total a.toList b.toList) files
      exact pairwise_getLast pyStrLe pyStrLe_refl sortedFiles hpw hne f hfs

theorem C6_upload_selection_witness :
    1 < (["2026-02-28_14-00-00.mp4", "2026-02-28_14-05-00.mp4",
          "2026-02-28_14-10-00.mp4"] : List String).length
    ∧ ∃ lastFile : String,
        (["2026-02-28_14-00-00.mp4", "2026-02-28_14-05-00.mp4",
          "2026-02-28_14-10-00.mp4"] : List String).mergeSort pyStrLe
          = completedSegments ["2026-02-28_14-00-00.mp4", "2026-02-28_14-05-00.mp4",
              "2026-02-28_14-10-00.mp4"] ++ [lastFile]
        ∧ ∀ f ∈ (["2026-02-28_14-00-00.mp4", "2026-02-28_14-05-00.mp4",
            "2026-02-28_14-10-00.mp4"] : List String), pyStrLe f lastFile = true := by
  refine ⟨by decide, ?_⟩
  exact C6_upload_selection.2.2.2
    ["2026-02-28_14-00-00.mp4", "2026-02-28_14-05-00.mp4", "2026-02-28_14-10-00.mp4"]
    (by decide)

theorem intDecLeTrans : ∀ a b c : Int, decide (a ≤ b) = true → decide (b ≤ c) = true →
    decide (a ≤ c) = true :=
  fun _ _ _ h1 h2 => decide_eq_true (le_trans (of_decide_eq_true h1) (of_decide_eq_true h2))

theorem intDecLeTotal : ∀ a b : Int, decide (a ≤ b) || decide (b ≤ a) := by
  intro a b
  rcases le_total a b with h | h <;> simp [h]

theorem intSortedMergeSort (l : List Int) :
    (l.mergeSort (fun a b => decide (a ≤ b))).Pairwise (fun a b : Int => decide (a ≤ b) = true) :=
  List.sorted_mergeSort intDecLeTrans intDecLeTotal l

theorem intMergeSortEval (l L : List Int) (hperm : l.Perm L)
    (hL : L.Pairwise (fun a b : Int => decide (a ≤ b) = true)) :
    l.mergeSort (fun a b => decide (a ≤ b)) = L := by
  apply List.eq_of_perm_of_sorted (r := (· ≤ ·))
  · exact (List.mergeSort_perm _ _).trans hperm
  · exact (intSortedMergeSort l).imp (fun {a b} hab => by simpa using hab)
  · exact hL.imp (fun {a b} hab => by simpa using hab)

/-- C9: `get_recording_days` applied to the example subfolder names with
year 2026 and month 2 yields [3, 15, 28]; in general the result is sorted and
contains exactly the day values parsed by `int(...)` from the suffixes of the
names starting with the zero-padded `YYYY-MM-` pattern (unparsable suffixes
are skipped). -/
theorem C9_recording_days :
    get_recording_days ["2026-02-15", "2026-02-03", "2026-02-28", "2026-01-10"] 2026 2
      = [3, 15, 28]
    ∧ ∀ (folders : List String) (year month : Nat),
        (get_recording_days folders year month).Sorted (· ≤ ·)
        ∧ ∀ d : Int, d ∈ get_recording_days folders year month ↔
            ∃ name ∈ folders, pyStartsWith (monthPat year month) name = true
              ∧ pyInt (name.drop (monthPat year month).length) = some d := by
  constructor
  · have h1 : get_recording_days ["2026-02-15", "2026-02-03", "2026-02-28", "2026-01-10"] 2026 2
        = List.mergeSort [15, 3, 28] (fun a b => decide (a ≤ b)) := rfl
    rw [h1, intMergeSortEval [15, 3, 28] [3, 15, 28] (by decide) (by decide)]
  · intro folders year month
    constructor
    · exact (intSortedMergeSort _).imp (fun {a b} hab => by simpa using hab)
    · intro d
      show d ∈ List.mergeSort _ _ ↔ _
      rw [List.mem_mergeSort, List.mem_filterMap]
      constructor
      · rintro ⟨name, hname, hsome⟩
        by_cases hp : pyStartsWith (monthPat year month) name
        · exact ⟨name, hname, hp, by simpa [hp] using hsome⟩
        · simp [hp] at hsome
      · rintro ⟨name, hname, hp, hval⟩
        exact ⟨name, hname, by simp [hp, hval]⟩

/-- C10: `_get_folder_id` memoizes under the single key `parent_id + "/" +
name`, so two distinct (parent, name) pairs whose concatenations coincide are
conflated: after resolving the first pair, a call with the second pair returns
the id memoized for the first pair, performs zero remote calls, and leaves the
cache unchanged — it never resolves the second pair's own folder. -/
theorem C10_folder_cache_conflation (remote : String → String → String)
    (cache0 : String → Option String) (p1 n1 p2 n2 : String)
    (hne : (p1, n1) ≠ (p2, n2))
    (hkey : p1 ++ "/" ++ n1 = p2 ++ "/" ++ n2)
    (hmiss : cache0 (p1 ++ "/" ++ n1) = none) :
    (_get_folder_id remote cache0 n1 p1).folder_id = remote n1 p1
    ∧ (_get_folder_id remote cache0 n1 p1).remoteCalls = 1
    ∧ (_get_folder_id remote (_get_folder_id remote cache0 n1 p1).cache n2 p2).folder_id
        = remote n1 p1
    ∧ (_get_folder_id remote (_get_folder_id remote cache0 n1 p1).cache n2 p2).remoteCalls
        = 0
    ∧ (_get_folder_id remote (_get_folder_id remote cache0 n1 p1).cache n2 p2).cache
        = (_get_folder_id remote cache0 n1 p1).cache := by
  have e1 : _get_folder_id remote cache0 n1 p1
      = ⟨remote n1 p1, upd cache0 (p1 ++ "/" ++ n1) (some (remote n1 p1)), 1⟩ := by
    simp only [_get_folder_id, hmiss]
  have e2 : upd cache0 (p1 ++ "/" ++ n1) (some (remote n1 p1)) (p2 ++ "/" ++ n2)
      = some (remote n1 p1) := by
    rw [← hkey, upd_same]
  have e3 : _get_folder_id remote (upd cache0 (p1 ++ "/" ++ n1) (some (remote n1 p1))) n2 p2
      = ⟨remote n1 p1, upd cache0 (p1 ++ "/" ++ n1) (some (remote n1 p1)), 0⟩ := by
    simp only [_get_folder_id, e2]
  rw [e1, e3]
  exact ⟨rfl, rfl, rfl, rfl, rfl⟩

theorem C10_folder_cache_conflation_witness :
    ((("a" : String), ("b/c" : String)) ≠ (("a/b" : String), ("c" : String)))
    ∧ ("a" ++ "/" ++ "b/c" : String) = "a/b" ++ "/" ++ "c"
    ∧ (_get_folder_id gdriveStub (fun _ => none) "b/c" "a").folder_id = gdriveStub "b/c" "a"
    ∧ (_get_folder_id gdriveStub
        (_get_folder_id gdriveStub (fun _ => none) "b/c" "a").cache "c" "a/b").folder_id
        = gdriveStub "b/c" "a"
    ∧ (_get_folder_id gdriveStub
        (_get_folder_id gdriveStub (fun _ => none) "b/c" "a").cache "c" "a/b").remoteCalls
        = 0 := by
  have h := C10_folder_cache_conflation gdriveStub (fun _ => none) "a" "b/c" "a/b" "c"
    (by decide) (by decide) rfl
  exact ⟨by decide, by decide, h.1, h.2.2.1, h.2.2.2.1⟩

theorem get_no_active {σ : Type} (st : PoolState σ) (key : String) (now : Int)
    (connect : Except String σ) (hs : activeSusp st key now = false) :
    DevicePool.get st key now connect
      = DevicePool.lookupOrConnect (lockAndClear st key) key now connect := by
  unfold activeSusp at hs
  unfold DevicePool.get
  cases h : st.suspensions key with
  | none =>
    have hstate : lockAndClear st key = { st with locks := upd st.locks key true } := by
      unfold lockAndClear
      have hupd : upd st.suspensions key none = st.suspensions := by
        funext x
        by_cases hx : x = key
        · subst hx; simp [upd, h]
        · simp [upd, hx]
      rw [hupd]
    rw [hstate]
    simp only [h]
  | some s =>
    rw [h] at hs
    simp only at hs
    simp only [h]
    rw [if_neg (by simp [hs])]
    rfl

theorem lookupOrConnect_stale {σ : Type} (st : PoolState σ) (key : String) (now : Int)
    (connect : Except String σ) (hf : entryFresh st key now = false) :
    DevicePool.lookupOrConnect st key now connect
      = DevicePool.connectNew st key now connect := by
  unfold entryFresh at hf
  unfold DevicePool.lookupOrConnect
  cases h : st.pool key with
  | none => rfl
  | some e =>
    rw [h] at hf
    simp only at hf
    simp at hf
    simp [hf]

theorem lookupOrConnect_fresh {σ : Type} (st : PoolState σ) (key : String) (now : Int)
    (connect : Except String σ) (e : Entry σ) (hp : st.pool key = some e)
    (hfresh : now - e.created_at ≤ SESSION_TTL) :
    DevicePool.lookupOrConnect st key now connect = ⟨GetResult.ok e.camera, st, false⟩ := by
  unfold DevicePool.lookupOrConnect
  rw [hp]
  have hexp : e.is_expired now = false := by
    simp [Entry.is_expired]
    omega
  simp [hexp]

theorem connectNew_invoked {σ : Type} (st : PoolState σ) (key : String) (now : Int)
    (connect : Except String σ) :
    (DevicePool.connectNew st key now connect).invoked = true := by
  unfold DevicePool.connectNew
  cases connect with
  | ok s => rfl
  | error msg =>
    cases h : _parse_suspension_seconds msg with
    | none => simp [h]
    | some n => by_cases h0 : 0 < n <;> simp [h, h0]

theorem entryFresh_mono {σ : Type} (st : PoolState σ) (key : String) (t t' : Int)
    (h : t ≤ t') (hf : entryFresh st key t = false) : entryFresh st key t' = false := by
  unfold entryFresh at *
  cases hp : st.pool key with
  | none => rfl
  | some e =>
    rw [hp] at hf
    simp only at hf ⊢
    simp [Entry.is_expired] at hf ⊢
    omega

theorem get_active {σ : Type} (st : PoolState σ) (key : String) (now : Int)
    (connect : Except String σ) (s : Suspension)
    (h : st.suspensions key = some s) (ha : s.is_active now = true) :
    DevicePool.get st key now connect
      = ⟨GetResult.suspendedErr (s.remaining_seconds now),
         { st with locks := upd st.locks key true }, false⟩ := by
  unfold DevicePool.get
  simp only [h, ha]
  rfl

theorem entryFresh_congr_pool {σ : Type} (st st' : PoolState σ) (key : String) (t : Int)
    (h : st.pool = st'.pool) : entryFresh st key t = entryFresh st' key t := by
  unfold entryFresh
  rw [h]

/-- C1 amended: when the factory call fails (with no active suspension and no
fresh cache entry for the key), the original error is re-raised and the pool
is untouched.  If the message contains `Try again in N seconds` for a POSITIVE
N, a suspension expiring N seconds from now is installed: every later `get`
while `now < retryAt` raises the Suspended error with the remaining seconds
and does not invoke the factory, and any `get` at or after `retryAt` discards
the suspension and invokes the factory again.  If the pattern is absent — or
parses to N = 0, the case the original claim got wrong, since Python's
`if seconds:` treats 0 like None — no suspension is recorded for the key. -/
theorem C1_suspension_lifecycle {σ : Type} (st : PoolState σ) (key : String)
    (now : Int) (msg : String)
    (hs : activeSusp st key now = false)
    (hf : entryFresh st key now = false) :
    (DevicePool.get st key now (Except.error msg)).result = GetResult.err msg
    ∧ (DevicePool.get st key now (Except.error msg)).invoked = true
    ∧ (DevicePool.get st key now (Except.error msg)).state.pool = st.pool
    ∧ (∀ n : Nat, _parse_suspension_seconds msg = some n → 0 < n →
        (DevicePool.get st key now (Except.error msg)).state.suspensions key
            = some ⟨now + n⟩
        ∧ (∀ (now' : Int) (connect' : Except String σ), now' < now + n →
            (DevicePool.get (DevicePool.get st key now (Except.error msg)).state
                key now' connect').result
              = GetResult.suspendedErr (max 0 (now + n - now'))
            ∧ (DevicePool.get (DevicePool.get st key now (Except.error msg)).state
                key now' connect').invoked = false)
        ∧ (∀ (now2 : Int) (connect2 : Except String σ), now + n ≤ now2 →
            (DevicePool.get (DevicePool.get st key now (Except.error msg)).state
                key now2 connect2).invoked = true)
        ∧ (∀ (now2 : Int) (sess : σ), now + n ≤ now2 →
            (DevicePool.get (DevicePool.get st key now (Except.error msg)).state
                key now2 (Except.ok sess)).result = GetResult.ok sess
            ∧ (DevicePool.get (DevicePool.get st key now (Except.error msg)).state
                key now2 (Except.ok sess)).state.suspensions key = none))
    ∧ ((_parse_suspension_seconds msg = none ∨ _parse_suspension_seconds msg = some 0) →
        (DevicePool.get st key now (Except.error msg)).state.suspensions key = none) := by
  have hchain : DevicePool.get st key now (Except.error msg)
      = DevicePool.connectNew (lockAndClear st key) key now (Except.error msg) :=
    (get_no_active st key now _ hs).trans (lookupOrConnect_stale _ key now _ hf)
  refine ⟨?_, ?_, ?_, ?_, ?_⟩
  · rw [hchain]
    unfold DevicePool.connectNew
    cases hp : _parse_suspension_seconds msg with
    | none => simp [hp]
    | some n => by_cases h0 : 0 < n <;> simp [hp, h0]
  · rw [hchain]; exact connectNew_invoked _ _ _ _
  · rw [hchain]
    unfold DevicePool.connectNew
    cases hp : _parse_suspension_seconds msg with
    | none => simp [hp]; rfl
    | some n => by_cases h0 : 0 < n <;> simp [hp, h0] <;> rfl
  · intro n hp h0
    have hcn : DevicePool.get st key now (Except.error msg)
        = ⟨GetResult.err msg,
           { lockAndClear st key with
             suspensions := upd (lockAndClear st key).suspensions key
               (some ⟨now + (n : Int)⟩) }, true⟩ := by
      rw [hchain]
      unfold DevicePool.connectNew
      simp [hp, h0]
    have hsusp : (DevicePool.get st key now (Except.error msg)).state.suspensions key
        = some ⟨now + (n : Int)⟩ := by
      rw [hcn]
      simp [lockAndClear, upd]
    have hpool : (DevicePool.get st key now (Except.error msg)).state.pool = st.pool := by
      rw [hcn]
      rfl
    refine ⟨hsusp, ?_, ?_, ?_⟩
    · intro now' connect' hlt
      have ha : Suspension.is_active ⟨now + (n : Int)⟩ now' = true := by
        simp [Suspension.is_active, hlt]
      rw [get_active _ key now' connect' _ hsusp ha]
      exact ⟨rfl, rfl⟩
    · intro now2 connect2 hge
      have ha : Suspension.is_active ⟨now + (n : Int)⟩ now2 = false := by
        simp [Suspension.is_active]
        omega
      have hs2 : activeSusp (DevicePool.get st key now (Except.error msg)).state key now2
          = false := by
        unfold activeSusp
        rw [hsusp]
        exact ha
      have hf2 : entryFresh (DevicePool.get st key now (Except.error msg)).state key now2
          = false := by
        rw [entryFresh_congr_pool _ st key now2 hpool]
        exact entryFresh_mono st key now now2 (by omega) hf
      rw [(get_no_active _ key now2 _ hs2).trans (lookupOrConnect_stale _ key now2 _ hf2)]
      exact connectNew_invoked _ _ _ _
    · intro now2 sess hge
      have ha : Suspension.is_active ⟨now + (n : Int)⟩ now2 = false := by
        simp [Suspension.is_active]
        omega
      have hs2 : activeSusp (DevicePool.get st key now (Except.error msg)).state key now2
          = false := by
        unfold activeSusp
        rw [hsusp]
        exact ha
      have hf2 : entryFresh (DevicePool.get st key now (Except.error msg)).state key now2
          = false := by
        rw [entryFresh_congr_pool _ st key now2 hpool]
        exact entryFresh_mono st key now now2 (by omega) hf
      rw [(get_no_active _ key now2 _ hs2).trans (lookupOrConnect_stale _ key now2 _ hf2)]
      unfold DevicePool.connectNew
      refine ⟨rfl, ?_⟩
      simp [lockAndClear, upd]
  · intro hcase
    rw [hchain]
    unfold DevicePool.connectNew
    rcases hcase with hp | hp
    · simp [hp, lockAndClear, upd]
    · simp [hp, lockAndClear, upd]

/-- C1 counterexample: the error message `Temporary Suspension: Try again in 0
seconds` does contain the pattern with the decimal integer N = 0, yet `get`
installs no suspension for the key — `if seconds:` in the code is false for a
parsed 0 — refuting the claim as stated for N = 0. -/
theorem C1_zero_seconds_counterexample :
    _parse_suspension_seconds "Temporary Suspension: Try again in 0 seconds" = some 0
    ∧ activeSusp emptyPool "10.0.0.1" 0 = false
    ∧ entryFresh emptyPool "10.0.0.1" 0 = false
    ∧ (DevicePool.get emptyPool "10.0.0.1" 0
         (Except.error "Temporary Suspension: Try again in 0 seconds")).state.suspensions
        "10.0.0.1" = none := by
  exact ⟨rfl, rfl, rfl, rfl⟩

theorem C1_suspension_lifecycle_witness :
    activeSusp emptyPool "10.0.0.1" 0 = false
    ∧ entryFresh emptyPool "10.0.0.1" 0 = false
    ∧ _parse_suspension_seconds suspMsg1800 = some 1800
    ∧ (DevicePool.get emptyPool "10.0.0.1" 0 (Except.error suspMsg1800)).state.suspensions
        "10.0.0.1" = some ⟨1800⟩
    ∧ (DevicePool.get (DevicePool.get emptyPool "10.0.0.1" 0 (Except.error suspMsg1800)).state
         "10.0.0.1" 900 (Except.ok 7)).invoked = false
    ∧ (DevicePool.get (DevicePool.get emptyPool "10.0.0.1" 0 (Except.error suspMsg1800)).state
         "10.0.0.1" 1800 (Except.ok 7)).invoked = true := by
  have h := C1_suspension_lifecycle emptyPool "10.0.0.1" 0 suspMsg1800 rfl rfl
  have h4 := h.2.2.2.1 1800 (by rfl) (by norm_num)
  refine ⟨rfl, rfl, by rfl, by simpa using h4.1,
    (h4.2.1 900 (Except.ok 7) (by norm_num)).2, ?_⟩
  have := h4.2.2.1 1800 (Except.ok 7) (by norm_num)
  simpa using this

/-- C2: with no active suspension for the key, a `get` finding a cached entry
with `now - createdAt <= 600` returns exactly that entry's session without
invoking the factory; with the entry absent or expired, `get` invokes the
factory (exactly once — the call structure performs at most one invocation)
and, on success, stores a fresh entry under the key and returns its session. -/
theorem C2_ttl_caching {σ : Type} (st : PoolState σ) (key : String) (now : Int)
    (connect : Except String σ) (hs : activeSusp st key now = false) :
    (∀ e : Entry σ, st.pool key = some e → now - e.created_at ≤ SESSION_TTL →
      (DevicePool.get st key now connect).result = GetResult.ok e.camera
      ∧ (DevicePool.get st key now connect).invoked = false)
    ∧ (entryFresh st key now = false →
      (DevicePool.get st key now connect).invoked = true
      ∧ ∀ sess : σ, connect = Except.ok sess →
          (DevicePool.get st key now connect).result = GetResult.ok sess
          ∧ (DevicePool.get st key now connect).state.pool key
              = some ⟨sess, now⟩) := by
  constructor
  · intro e hp hfresh
    have hp' : (lockAndClear st key).pool key = some e := hp
    rw [get_no_active st key now connect hs,
        lookupOrConnect_fresh _ key now connect e hp' hfresh]
    exact ⟨rfl, rfl⟩
  · intro hf
    have hchain : DevicePool.get st key now connect
        = DevicePool.connectNew (lockAndClear st key) key now connect :=
      (get_no_active st key now connect hs).trans (lookupOrConnect_stale _ key now _ hf)
    constructor
    · rw [hchain]; exact connectNew_invoked _ _ _ _
    · intro sess hconn
      subst hconn
      rw [hchain]
      unfold DevicePool.connectNew
      exact ⟨rfl, by simp [lockAndClear, upd]⟩

theorem C2_ttl_caching_witness :
    activeSusp cachedPool "10.0.0.1" 600 = false
    ∧ (600 : Int) - (0 : Int) ≤ SESSION_TTL
    ∧ (DevicePool.get cachedPool "10.0.0.1" 600 (Except.ok 99)).result = GetResult.ok 42
    ∧ (DevicePool.get cachedPool "10.0.0.1" 600 (Except.ok 99)).invoked = false
    ∧ entryFresh emptyPool "10.0.0.2" 0 = false
    ∧ (DevicePool.get emptyPool "10.0.0.2" 0 (Except.ok 5)).invoked = true
    ∧ (DevicePool.get emptyPool "10.0.0.2" 0 (Except.ok 5)).state.pool "10.0.0.2"
        = some ⟨5, 0⟩ := by
  have h1 := (C2_ttl_caching cachedPool "10.0.0.1" 600 (Except.ok 99) rfl).1 ⟨42, 0⟩ rfl
    (by norm_num [SESSION_TTL])
  have h2 := (C2_ttl_caching emptyPool "10.0.0.2" 0 (Except.ok 5) rfl).2 rfl
  exact ⟨rfl, by norm_num [SESSION_TTL], h1.1, h1.2, rfl, h2.1, (h2.2 5 rfl).2⟩

/-- C7: `invalidate(key)` clears only the cached entry of that key: the key's
entry becomes absent (so the next `get` with no active suspension invokes the
factory even if the removed entry was fresh), every other key's entry is
untouched, and the suspension table and the lock table are unchanged whole —
in particular an active suspension for the key stays exactly as active as it
was. -/
theorem C7_invalidate_frame {σ : Type} (st : PoolState σ) (key : String) :
    (DevicePool.invalidate st key).pool key = none
    ∧ (∀ k : String, k ≠ key → (DevicePool.invalidate st key).pool k = st.pool k)
    ∧ (DevicePool.invalidate st key).suspensions = st.suspensions
    ∧ (DevicePool.invalidate st key).locks = st.locks
    ∧ (∀ now : Int, activeSusp (DevicePool.invalidate st key) key now = activeSusp st key now)
    ∧ (∀ (now : Int) (connect : Except String σ), activeSusp st key now = false →
        (DevicePool.get (DevicePool.invalidate st key) key now connect).invoked = true) := by
  refine ⟨by simp [DevicePool.invalidate, DevicePool.remove, upd], ?_, rfl, rfl,
    fun _ => rfl, ?_⟩
  · intro k hk
    simp [DevicePool.invalidate, DevicePool.remove, upd, hk]
  · intro now connect hsusp
    have hs' : activeSusp (DevicePool.invalidate st key) key now = false := hsusp
    have hf' : entryFresh (DevicePool.invalidate st key) key now = false := by
      unfold entryFresh DevicePool.invalidate DevicePool.remove
      simp [upd]
    rw [(get_no_active _ key now _ hs').trans (lookupOrConnect_stale _ key now _ hf')]
    exact connectNew_invoked _ _ _ _

theorem C7_invalidate_frame_witness :
    (DevicePool.invalidate c7Pool "10.0.0.1").pool "10.0.0.1" = none
    ∧ ("10.0.0.2" : String) ≠ "10.0.0.1"
    ∧ (DevicePool.invalidate c7Pool "10.0.0.1").pool "10.0.0.2" = c7Pool.pool "10.0.0.2"
    ∧ (DevicePool.invalidate c7Pool "10.0.0.1").suspensions = c7Pool.suspensions
    ∧ activeSusp c7Pool "10.0.0.1" 10 = false
    ∧ (DevicePool.get (DevicePool.invalidate c7Pool "10.0.0.1") "10.0.0.1" 10
        (Except.ok 3)).invoked = true := by
  have h := C7_invalidate_frame c7Pool "10.0.0.1"
  exact ⟨h.1, by decide, h.2.1 "10.0.0.2" (by decide), h.2.2.1, rfl,
    h.2.2.2.2.2 10 (Except.ok 3) rfl⟩

theorem cinv_init {n : Nat} (key : Fin n → String) : CInv key (initC n) := by
  refine ⟨?_, ?_, ?_, ?_, ?_, ?_⟩
  · intro k i h; exact absurd h (by simp [initC])
  · intro i h; rcases h with h | h <;> exact absurd h (by simp [initC])
  · intro k h
    rcases h with h | ⟨i, _, h⟩
    · exact absurd h (by simp [initC])
    · exact absurd h (by simp [initC])
  · intro k _ _; rfl
  · intro k i h; exact absurd h (by simp [initC])
  · intro i h; exact absurd h (by simp [initC])

theorem cinv_step {n : Nat} (key : Fin n → String) (s s' : CState n)
    (hinv : CInv key s) (hstep : CStep key s s') : CInv key s' := by
  cases hstep with
  | acquire i hpc hlock =>
    refine ⟨?_, ?_, ?_, ?_, ?_, ?_⟩ <;> dsimp only
    · intro k j hk
      by_cases hki : k = key i
      · subst hki
        rw [upd_same] at hk
        cases hk
        refine ⟨rfl, Or.inl ?_⟩
        simp [upd_same]
      · rw [upd_other _ _ _ _ hki] at hk
        obtain ⟨hkey, hpcj⟩ := hinv.lockOwner k j hk
        have hji : j ≠ i := by
          intro hji; subst hji; exact hki hkey.symm
        refine ⟨hkey, ?_⟩
        simpa [upd_other _ _ _ _ hji] using hpcj
    · intro j hj
      by_cases hji : j = i
      · subst hji
        simp [upd_same]
      · rw [upd_other _ _ _ _ hji] at hj
        have hl := hinv.holdsLock j hj
        have hkji : key j ≠ key i := by
          intro he
          rw [he, hlock] at hl
          cases hl
        simp [upd_other _ _ _ _ hji, upd_other _ _ _ _ hkji, hl]
    · intro k hk
      apply hinv.countOne k
      rcases hk with hc | ⟨j, hkj, hj⟩
      · exact Or.inl hc
      · refine Or.inr ⟨j, hkj, ?_⟩
        by_cases hji : j = i
        · subst hji
          rw [upd_same] at hj
          cases hj
        · rwa [upd_other _ _ _ _ hji] at hj
    · intro k hc hno
      apply hinv.countZero k hc
      intro j hkj hj
      by_cases hji : j = i
      · subst hji; rw [hpc] at hj; cases hj
      · exact hno j hkj (by rwa [upd_other _ _ _ _ hji])
    · intro k j hc hkj
      by_cases hji : j = i
      · subst hji; simp [upd_same]
      · rw [upd_other _ _ _ _ hji]
        exact hinv.noBoth k j hc hkj
    · intro j hj
      by_cases hji : j = i
      · subst hji; rw [upd_same] at hj; cases hj
      · rw [upd_other _ _ _ _ hji] at hj
        exact hinv.doneCached j hj
  | cacheHit i hpc hcache =>
    have hlock : s.lock (key i) = some i := hinv.holdsLock i (Or.inl hpc)
    refine ⟨?_, ?_, ?_, ?_, ?_, ?_⟩ <;> dsimp only
    · intro k j hk
      by_cases hki : k = key i
      · subst hki; rw [upd_same] at hk; cases hk
      · rw [upd_other _ _ _ _ hki] at hk
        obtain ⟨hkey, hpcj⟩ := hinv.lockOwner k j hk
        have hji : j ≠ i := by
          intro hji; subst hji; exact hki hkey.symm
        exact ⟨hkey, by simpa [upd_other _ _ _ _ hji] using hpcj⟩
    · intro j hj
      by_cases hji : j = i
      · subst hji
        rw [upd_same] at hj
        rcases hj with hj | hj <;> cases hj
      · rw [upd_other _ _ _ _ hji] at hj
        have hl := hinv.holdsLock j hj
        have hkji : key j ≠ key i := by
          intro he
          rw [he, hlock] at hl
          cases hl
          exact hji rfl
        simp [upd_other _ _ _ _ hkji, hl]
    · intro k hk
      apply hinv.countOne k
      rcases hk with hc | ⟨j, hkj, hj⟩
      · exact Or.inl hc
      · refine Or.inr ⟨j, hkj, ?_⟩
        by_cases hji : j = i
        · subst hji; rw [upd_same] at hj; cases hj
        · rwa [upd_other _ _ _ _ hji] at hj
    · intro k hc hno
      apply hinv.countZero k hc
      intro j hkj hj
      by_cases hji : j = i
      · subst hji; rw [hpc] at hj; cases hj
      · exact hno j hkj (by rwa [upd_other _ _ _ _ hji])
    · intro k j hc hkj
      by_cases hji : j = i
      · subst hji; simp [upd_same]
      · rw [upd_other _ _ _ _ hji]
        exact hinv.noBoth k j hc hkj
    · intro j hj
      by_cases hji : j = i
      · subst hji; exact hcache
      · rw [upd_other _ _ _ _ hji] at hj
        exact hinv.doneCached j hj
  | cacheMiss i hpc hcache =>
    have hlock : s.lock (key i) = some i := hinv.holdsLock i (Or.inl hpc)
    have hzero : s.count (key i) = 0 := by
      apply hinv.countZero (key i) hcache
      intro j hkj hj
      have hl := hinv.holdsLock j (Or.inr hj)
      rw [hkj, hlock] at hl
      cases hl
      rw [hpc] at hj
      cases hj
    refine ⟨?_, ?_, ?_, ?_, ?_, ?_⟩ <;> dsimp only
    · intro k j hk
      obtain ⟨hkey, hpcj⟩ := hinv.lockOwner k j hk
      refine ⟨hkey, ?_⟩
      by_cases hji : j = i
      · subst hji; right; exact upd_same _ _ _
      · simpa [upd_other _ _ _ _ hji] using hpcj
    · intro j hj
      by_cases hji : j = i
      · subst hji; exact hlock
      · rw [upd_other _ _ _ _ hji] at hj
        exact hinv.holdsLock j hj
    · intro k hk
      by_cases hki : k = key i
      · subst hki
        rw [upd_same, hzero]
      · rw [upd_other _ _ _ _ hki]
        apply hinv.countOne k
        rcases hk with hc | ⟨j, hkj, hj⟩
        · exact Or.inl hc
        · refine Or.inr ⟨j, hkj, ?_⟩
          by_cases hji : j = i
          · subst hji; exact absurd hkj.symm hki
          · rwa [upd_other _ _ _ _ hji] at hj
    · intro k hc hno
      by_cases hki : k = key i
      · subst hki
        exact absurd (upd_same _ _ _) (hno i rfl)
      · rw [upd_other _ _ _ _ hki]
        apply hinv.countZero k hc
        intro j hkj hj
        have hji : j ≠ i := by
          intro hji; subst hji; exact hki hkj.symm
        exact hno j hkj (by rwa [upd_other _ _ _ _ hji])
    · intro k j hc hkj
      by_cases hji : j = i
      · subst hji
        rw [← hkj] at hc
        rw [hcache] at hc
        cases hc
      · rw [upd_other _ _ _ _ hji]
        exact hinv.noBoth k j hc hkj
    · intro j hj
      by_cases hji : j = i
      · subst hji; rw [upd_same] at hj; cases hj
      · rw [upd_other _ _ _ _ hji] at hj
        exact hinv.doneCached j hj
  | finishFactory i hpc =>
    have hlock : s.lock (key i) = some i := hinv.holdsLock i (Or.inr hpc)
    refine ⟨?_, ?_, ?_, ?_, ?_, ?_⟩ <;> dsimp only
    · intro k j hk
      by_cases hki : k = key i
      · subst hki; rw [upd_same] at hk; cases hk
      · rw [upd_other _ _ _ _ hki] at hk
        obtain ⟨hkey, hpcj⟩ := hinv.lockOwner k j hk
        have hji : j ≠ i := by
          intro hji; subst hji; exact hki hkey.symm
        exact ⟨hkey, by simpa [upd_other _ _ _ _ hji] using hpcj⟩
    · intro j hj
      by_cases hji : j = i
      · subst hji
        rw [upd_same] at hj
        rcases hj with hj | hj <;> cases hj
      · rw [upd_other _ _ _ _ hji] at hj
        have hl := hinv.holdsLock j hj
        have hkji : key j ≠ key i := by
          intro he
          rw [he, hlock] at hl
          cases hl
          exact hji rfl
        simp [upd_other _ _ _ _ hkji, hl]
    · intro k hk
      by_cases hki : k = key i
      · subst hki
        exact hinv.countOne (key i) (Or.inr ⟨i, rfl, hpc⟩)
      · apply hinv.countOne k
        rcases hk with hc | ⟨j, hkj, hj⟩
        · rw [upd_other _ _ _ _ hki] at hc
          exact Or.inl hc
        · refine Or.inr ⟨j, hkj, ?_⟩
          by_cases hji : j = i
          · subst hji; exact absurd hkj.symm hki
          · rwa [upd_other _ _ _ _ hji] at hj
    · intro k hc hno
      by_cases hki : k = key i
      · subst hki
        rw [upd_same] at hc
        cases hc
      · rw [upd_other _ _ _ _ hki] at hc
        apply hinv.countZero k hc
        intro j hkj hj
        have hji : j ≠ i := by
          intro hji; subst hji; exact hki hkj.symm
        exact hno j hkj (by rwa [upd_other _ _ _ _ hji])
    · intro k j hc hkj
      by_cases hji : j = i
      · subst hji; simp [upd_same]
      · rw [upd_other _ _ _ _ hji]
        intro hj
        have hl := hinv.holdsLock j (Or.inr hj)
        by_cases hki : k = key i
        · subst hki
          rw [hkj, hlock] at hl
          cases hl
          exact hji rfl
        · rw [upd_other _ _ _ _ hki] at hc
          exact hinv.noBoth k j hc hkj hj
    · intro j hj
      by_cases hji : j = i
      · subst hji
        rw [upd_same]
      · rw [upd_other _ _ _ _ hji] at hj
        have := hinv.doneCached j hj
        by_cases hkji : key j = key i
        · rw [hkji, upd_same]
        · rwa [upd_other _ _ _ _ hkji]

theorem cinv_reach {n : Nat} (key : Fin n → String) (s : CState n)
    (h : CReach key s) : CInv key s := by
  induction h with
  | refl => exact cinv_init key
  | tail hsteps hstep ih => exact cinv_step key _ _ ih hstep

/-- C8: in the interleaving model of concurrent `DevicePool.get` calls, every
reachable state has at most one task inside a factory invocation per key (the
per-key lock spans the whole check-then-create sequence), and when all `n`
tasks have completed, the factory was invoked exactly once for each key that a
task used. -/
theorem C8_single_flight {n : Nat} (key : Fin n → String) (s : CState n) (hreach : CReach key s) :
    (∀ i j : Fin n, s.pcs i = TaskPC.inFactory → s.pcs j = TaskPC.inFactory →
        key i = key j → i = j)
    ∧ ((∀ i : Fin n, s.pcs i = TaskPC.done) → ∀ i : Fin n, s.count (key i) = 1) := by
  have hinv := cinv_reach key s hreach
  constructor
  · intro i j hi hj hij
    have h1 := hinv.holdsLock i (Or.inr hi)
    have h2 := hinv.holdsLock j (Or.inr hj)
    rw [hij, h2] at h1
    cases h1
    rfl
  · intro hdone i
    exact hinv.countOne (key i) (Or.inl (hinv.doneCached i (hdone i)))

theorem C8_single_flight_witness :
    ∃ s : CState 1, CReach (fun _ => "10.0.0.1") s
      ∧ (∀ i : Fin 1, s.pcs i = TaskPC.done) ∧ s.count "10.0.0.1" = 1 := by
  let k : Fin 1 → String := fun _ => "10.0.0.1"
  let s0 : CState 1 := initC 1
  let s1 : CState 1 :=
    { s0 with lock := upd s0.lock (k 0) (some 0), pcs := upd s0.pcs 0 TaskPC.locked }
  let s2 : CState 1 :=
    { s1 with count := upd s1.count (k 0) (s1.count (k 0) + 1),
              pcs := upd s1.pcs 0 TaskPC.inFactory }
  let s3 : CState 1 :=
    { s2 with lock := upd s2.lock (k 0) none, cache := upd s2.cache (k 0) true,
              pcs := upd s2.pcs 0 TaskPC.done }
  have h1 : CStep k s0 s1 := CStep.acquire s0 0 rfl rfl
  have h2 : CStep k s1 s2 := CStep.cacheMiss s1 0 rfl rfl
  have h3 : CStep k s2 s3 := CStep.finishFactory s2 0 rfl
  have hreach : CReach k s3 :=
    Relation.ReflTransGen.tail
      (Relation.ReflTransGen.tail (Relation.ReflTransGen.tail Relation.ReflTransGen.refl h1) h2) h3
  have hdone : ∀ i : Fin 1, s3.pcs i = TaskPC.done := by
    intro i
    fin_cases i
    rfl
  exact ⟨s3, hreach, hdone, (C8_single_flight k s3 hreach).2 hdone 0⟩

end HomeAutomation
